import Mathlib

/-!
Shallow embedding of the time-bucketed aggregation and rendering engine of
`discord_dm_analyser` (src/data.rs, src/main.rs), together with theorems
settling the specification claims about it.
-/

set_option maxRecDepth 4000

/-! ## Duration value (`TimeQuantity`, src/data.rs) -/

/-- Model of `TimeQuantity` (src/data.rs): five `usize` components. -/
structure TimeQuantity where
  days : Nat
  hours : Nat
  minutes : Nat
  seconds : Nat
  milliseconds : Nat
deriving DecidableEq, Repr

namespace TimeQuantity

/-- Rust `TimeQuantity::ZERO`. -/
def ZERO : TimeQuantity := ⟨0, 0, 0, 0, 0⟩

/-- Rust `impl From<usize> for TimeQuantity` (src/data.rs lines 32-51):
successive division and subtraction on the millisecond count. -/
def fromMillis (ms : Nat) : TimeQuantity :=
  let days := ms / (1000 * 60 * 60 * 24)
  let ms1 := ms - days * (1000 * 60 * 60 * 24)
  let hours := ms1 / (1000 * 60 * 60)
  let ms2 := ms1 - hours * (1000 * 60 * 60)
  let minutes := ms2 / (1000 * 60)
  let ms3 := ms2 - minutes * (1000 * 60)
  let seconds := ms3 / 1000
  let ms4 := ms3 - seconds * 1000
  ⟨days, hours, minutes, seconds, ms4⟩

/-- Rust `impl From<TimeQuantity> for usize` (src/data.rs lines 59-67). -/
def toMillis (t : TimeQuantity) : Nat :=
  t.days * (1000 * 60 * 60 * 24)
    + t.hours * (1000 * 60 * 60)
    + t.minutes * (1000 * 60)
    + t.seconds * 1000
    + t.milliseconds

/-- Rust `impl Add for TimeQuantity` (src/data.rs lines 69-75). -/
def add (a b : TimeQuantity) : TimeQuantity :=
  fromMillis (toMillis a + toMillis b)

/-- Rust `impl Div<usize> for TimeQuantity` (src/data.rs lines 83-89):
`checked_div(rhs).unwrap_or(0)` yields `0` on division by zero. -/
def div (a : TimeQuantity) (n : Nat) : TimeQuantity :=
  fromMillis (if n = 0 then 0 else toMillis a / n)

/-- Rust `impl Mul<usize> for TimeQuantity` (src/data.rs lines 97-103). -/
def mul (a : TimeQuantity) (n : Nat) : TimeQuantity :=
  fromMillis (toMillis a * n)

/-- Rust `impl Sum for TimeQuantity` (src/data.rs lines 111-115): a left fold
of `add` starting from `ZERO`. -/
def listSum (l : List TimeQuantity) : TimeQuantity :=
  l.foldl add ZERO

end TimeQuantity

/-- Rust `dataset_sum` (src/data.rs lines 205-207) instantiated at
`T = TimeQuantity`: sum the values, convert to `usize`. -/
def dataset_sum (data : List TimeQuantity) : Nat :=
  TimeQuantity.toMillis (TimeQuantity.listSum data)

/-- Rust `dataset_average` (src/data.rs lines 209-211) instantiated at
`T = TimeQuantity`: sum, divide by the element count, convert to `usize`. -/
def dataset_average (data : List TimeQuantity) : Nat :=
  TimeQuantity.toMillis (TimeQuantity.div (TimeQuantity.listSum data) data.length)

/-- C8: converting any `u` milliseconds to a `TimeQuantity` and back to a
millisecond count yields exactly `u`. -/
theorem timeQuantity_roundtrip (u : Nat) :
    TimeQuantity.toMillis (TimeQuantity.fromMillis u) = u := by
  simp only [TimeQuantity.fromMillis, TimeQuantity.toMillis]
  omega

/-- C9: dividing any `TimeQuantity` by zero yields the zero duration, and
the average reducer applied to an empty value list yields zero. -/
theorem timeQuantity_div_zero_and_empty_average :
    (∀ t : TimeQuantity, TimeQuantity.div t 0 = TimeQuantity.ZERO) ∧
      dataset_average [] = 0 :=
  ⟨fun _ => by simp [TimeQuantity.div, TimeQuantity.fromMillis, TimeQuantity.ZERO], rfl⟩

/-! ## Circular bucket aggregator (`Graph`, src/data.rs lines 141-203) -/

/-- Model of `Iterator::position` as used in `Graph::add`
(`self.authors.iter().position(|x| *x == author)`). -/
def findPosition {α : Type} (p : α → Bool) : List α → Option Nat
  | [] => none
  | x :: xs => if p x then some 0 else (findPosition p xs).map (· + 1)

/-- Model of the `Graph` struct (src/data.rs lines 141-149).  The reducer
`sum` and the `label_fn` closure are passed explicitly to the operations
that use them instead of being stored. -/
structure Graph (T : Type) where
  labels : List String
  authors : List String
  data : List (List (List T))
  start_idx : Nat
  width : Nat
deriving DecidableEq

/-- Rust `Graph::new` (src/data.rs lines 152-163): empty labels and data. -/
def Graph.new (T : Type) (authors : List String) (start_idx width : Nat) : Graph T :=
  ⟨[], authors, [], start_idx, width⟩

/-- Rust `Graph::add` (src/data.rs lines 165-179).  Here `none` models a panic
(the `line[author_index]` indexing); `some (b, g)` models a normal return
of `b` with post-state `g`.  When the bucket array is too short it is
extended with fresh rows of empty per-author lists, and the label array
is extended with `label_fn` applied to each newly created index. -/
def Graph.add {T : Type} (g : Graph T) (labelFn : Nat → String) (author : String)
    (idx : Nat) (q : T) : Option (Bool × Graph T) :=
  match findPosition (fun x => x == author) g.authors with
  | none => some (false, g)
  | some author_index =>
    let g2 : Graph T :=
      if g.data.length ≤ idx then
        { g with
          data := g.data ++
            List.replicate (idx + 1 - g.data.length) (List.replicate g.authors.length []),
          labels := g.labels ++
            (List.range' g.labels.length (idx + 1 - g.labels.length)).map labelFn }
      else g
    match g2.data[idx]? with
    | none => some (false, g2)
    | some line =>
      if author_index < line.length then
        some (true, { g2 with
          data := g2.data.set idx (line.set author_index (line.getD author_index [] ++ [q])) })
      else none

/-- The contents of the `(bucket, author)` cell of a `Graph`
(empty when the bucket or author column does not exist). -/
def Graph.cell {T : Type} (g : Graph T) (i a : Nat) : List T :=
  (g.data.getD i []).getD a []

/-- Well-formedness of a `Graph` state, maintained by `new` and `add`:
the label array parallels the bucket array and every bucket row has one
cell per registered author. -/
def Graph.WF {T : Type} (g : Graph T) : Prop :=
  g.labels.length = g.data.length ∧ ∀ line ∈ g.data, line.length = g.authors.length

instance {T : Type} (g : Graph T) : Decidable (Graph.WF g) := by
  unfold Graph.WF; infer_instance

theorem findPosition_eq_none {α : Type} (p : α → Bool) :
    ∀ l : List α, (∀ x ∈ l, p x = false) → findPosition p l = none := by
  intro l h
  induction l with
  | nil => rfl
  | cons x xs ih =>
    simp only [findPosition, h x (List.mem_cons_self x xs), Bool.false_eq_true, if_false,
      ih (fun y hy => h y (List.mem_cons_of_mem x hy)), Option.map_none']

theorem findPosition_mem {α : Type} [BEq α] [LawfulBEq α] (a : α) :
    ∀ l : List α, a ∈ l →
      ∃ i, findPosition (fun x => x == a) l = some i ∧ i < l.length := by
  intro l h
  induction l with
  | nil => cases h
  | cons x xs ih =>
    by_cases hx : x == a
    · exact ⟨0, by simp [findPosition, hx], Nat.succ_pos _⟩
    · have hmem : a ∈ xs := by
        rcases List.mem_cons.mp h with h1 | h1
        · exact absurd (by simp [h1]) hx
        · exact h1
      obtain ⟨i, hi, hlt⟩ := ih hmem
      refine ⟨i + 1, ?_, by simpa using Nat.succ_lt_succ hlt⟩
      simp [findPosition, hx, hi]

/-- C5: `Graph::add` with an author outside the registry returns `false`
and leaves the `Graph` entirely unchanged. -/
theorem graph_add_unknown_author {T : Type} (g : Graph T) (labelFn : Nat → String)
    (author : String) (idx : Nat) (q : T) (h : author ∉ g.authors) :
    g.add labelFn author idx q = some (false, g) := by
  have : findPosition (fun x => x == author) g.authors = none := by
    refine findPosition_eq_none _ _ (fun x hx => ?_)
    by_cases hxa : x = author
    · exact absurd (hxa ▸ hx) h
    · simpa using hxa
  simp [Graph.add, this]

/-- Witness for C5 at a concrete graph: author `"B"` is not registered,
`add` returns `false` and the graph is unchanged. -/
theorem graph_add_unknown_author_witness :
    ("B" : String) ∉ ["A"] ∧
      (Graph.new Nat ["A"] 0 50).add (fun _ => "L") "B" 5 7 =
        some (false, Graph.new Nat ["A"] 0 50) :=
  ⟨by decide, graph_add_unknown_author (Graph.new Nat ["A"] 0 50) (fun _ => "L") "B" 5 7 (by decide)⟩

theorem list_getElem?_replicate {α : Type} (x : α) :
    ∀ (k i : Nat), i < k → (List.replicate k x)[i]? = some x := by
  intro k
  induction k with
  | zero => intro i h; omega
  | succ k ih =>
    intro i h
    cases i with
    | zero => simp [List.replicate]
    | succ i => simpa [List.replicate] using ih i (by omega)

theorem list_getD_of_le {α : Type} (d : α) :
    ∀ (l : List α) (i : Nat), l.length ≤ i → l.getD i d = d := by
  intro l
  induction l with
  | nil => intro i _; cases i <;> rfl
  | cons x xs ih =>
    intro i h
    cases i with
    | zero => simp at h
    | succ i => simpa [List.getD] using ih i (by simpa using h)

theorem list_getD_set_self {α : Type} (a d : α) :
    ∀ (l : List α) (i : Nat), i < l.length → (l.set i a).getD i d = a := by
  intro l
  induction l with
  | nil => intro i h; simp at h
  | cons x xs ih =>
    intro i h
    cases i with
    | zero => rfl
    | succ i => simpa [List.set, List.getD] using ih i (by simpa using h)

theorem list_getD_replicate {α : Type} (x d : α) (k i : Nat) (h : i < k) :
    (List.replicate k x).getD i d = x := by
  simp [List.getD, list_getElem?_replicate x k i h]

theorem list_getD_eq_of_getElem? {α : Type} (l : List α) (i : Nat) (a d : α)
    (h : l[i]? = some a) : l.getD i d = a := by
  simp [List.getD, h]

/-- C6: `Graph::add` with a registered author and an arbitrary bucket index
never fails: it extends the bucket and label arrays up to the index
(invoking the label function once per newly created slot, at that slot's
index), appends the value to the addressed cell, returns `true`, and
preserves well-formedness. -/
theorem graph_add_registered {T : Type} (g : Graph T) (labelFn : Nat → String)
    (author : String) (idx : Nat) (q : T) (hwf : g.WF) (hmem : author ∈ g.authors) :
    ∃ g2 ai, findPosition (fun x => x == author) g.authors = some ai ∧
      g.add labelFn author idx q = some (true, g2) ∧
      g2.data.length = max g.data.length (idx + 1) ∧
      g2.labels = g.labels ++ (List.range' g.data.length (idx + 1 - g.data.length)).map labelFn ∧
      g2.cell idx ai = g.cell idx ai ++ [q] ∧
      g2.WF := by
  obtain ⟨hlab, hrows⟩ := hwf
  obtain ⟨ai, hfind, hai⟩ := findPosition_mem author g.authors hmem
  by_cases hext : g.data.length ≤ idx
  · -- the bucket array grows to `idx + 1` rows
    have hget : (g.data ++ List.replicate (idx + 1 - g.data.length)
        (List.replicate g.authors.length ([] : List T)))[idx]? =
        some (List.replicate g.authors.length []) := by
      rw [List.getElem?_append_right hext]
      exact list_getElem?_replicate _ _ _ (by omega)
    refine ⟨{ g with
        data := (g.data ++ List.replicate (idx + 1 - g.data.length)
            (List.replicate g.authors.length ([] : List T))).set idx
          ((List.replicate g.authors.length ([] : List T)).set ai
            ((List.replicate g.authors.length ([] : List T)).getD ai [] ++ [q])),
        labels := g.labels ++
          (List.range' g.labels.length (idx + 1 - g.labels.length)).map labelFn },
      ai, hfind, ?_, ?_, ?_, ?_, ?_⟩
    · simp only [Graph.add, hfind]
      rw [if_pos hext]
      simp only [hget]
      rw [if_pos (by simpa using hai)]
    · simp only [List.length_set, List.length_append, List.length_replicate]
      omega
    · rw [hlab]
    · simp only [Graph.cell]
      rw [list_getD_set_self _ _ _ _
        (by simp only [List.length_append, List.length_replicate]; omega)]
      rw [list_getD_set_self _ _ _ _ (by simpa using hai)]
      rw [list_getD_replicate _ _ _ _ hai]
      rw [list_getD_of_le _ _ _ hext]
      rw [list_getD_of_le _ ([] : List (List T)) ai (Nat.zero_le ai)]
    · constructor
      · simp only [List.length_set, List.length_append, List.length_replicate, List.length_map,
          List.length_range']
        omega
      · intro line hline
        rcases List.mem_or_eq_of_mem_set hline with h1 | h1
        · rcases List.mem_append.mp h1 with h2 | h2
          · exact hrows line h2
          · rw [List.eq_of_mem_replicate h2, List.length_replicate]
        · subst h1
          rw [List.length_set, List.length_replicate]
  · -- the bucket array already has more than `idx` rows
    push_neg at hext
    have hget : g.data[idx]? = some (g.data.get ⟨idx, hext⟩) := by
      rw [← List.get?_eq_getElem?]
      exact List.get?_eq_get hext
    have hlen : (g.data.get ⟨idx, hext⟩).length = g.authors.length :=
      hrows _ (g.data.get_mem _ _)
    refine ⟨{ g with
        data := g.data.set idx ((g.data.get ⟨idx, hext⟩).set ai
          ((g.data.get ⟨idx, hext⟩).getD ai [] ++ [q])) },
      ai, hfind, ?_, ?_, ?_, ?_, ?_⟩
    · simp only [Graph.add, hfind]
      rw [if_neg (by omega)]
      simp only [hget]
      rw [if_pos (by omega)]
    · simp only [List.length_set]; omega
    · rw [show idx + 1 - g.data.length = 0 from by omega]
      simp [List.range']
    · simp only [Graph.cell]
      rw [list_getD_set_self _ _ _ _ (by simpa using hext)]
      rw [list_getD_set_self _ _ _ _ (by omega)]
      rw [list_getD_eq_of_getElem? _ _ _ _ hget]
    · constructor
      · simp only [List.length_set]; omega
      · intro line hline
        rcases List.mem_or_eq_of_mem_set hline with h1 | h1
        · exact hrows line h1
        · subst h1
          rw [List.length_set, hlen]

/-- Witness for C6 at a concrete graph: adding index 2 to an empty
well-formed one-author graph grows it to three buckets. -/
theorem graph_add_registered_witness :
    (Graph.new Nat ["A"] 0 50).WF ∧ ("A" : String) ∈ ["A"] ∧
      (∃ g2 ai, findPosition (fun x => x == "A") ["A"] = some ai ∧
        (Graph.new Nat ["A"] 0 50).add (fun _ => "L") "A" 2 7 = some (true, g2) ∧
        g2.data.length = max (Graph.new Nat ["A"] 0 50).data.length (2 + 1) ∧
        g2.labels = (Graph.new Nat ["A"] 0 50).labels ++
          (List.range' (Graph.new Nat ["A"] 0 50).data.length
            (2 + 1 - (Graph.new Nat ["A"] 0 50).data.length)).map (fun _ => "L") ∧
        g2.cell 2 ai = (Graph.new Nat ["A"] 0 50).cell 2 ai ++ [7] ∧
        g2.WF) :=
  ⟨by decide, by decide,
    graph_add_registered (Graph.new Nat ["A"] 0 50) (fun _ => "L") "A" 2 7 (by decide) (by decide)⟩

/-! ## Interval splitter (`call_graph`, src/main.rs lines 515-544, and
`call_png`, src/main.rs lines 546-579) -/

/-- The `while remaining_millis > 0` loop shared by `call_graph` and
`call_png`: emit `(index % N, min remaining w)`, subtract `w`
(saturating) from `remaining`, advance `index`.  The fuel argument is
initialized to `remaining`, which bounds the iteration count whenever
`w ≥ 1`. -/
def splitTailAux (N w : Nat) : Nat → Nat → Nat → List (Nat × Nat)
  | 0, _, _ => []
  | fuel + 1, index, remaining =>
    if remaining = 0 then []
    else (index % N, min remaining w) :: splitTailAux N w fuel (index + 1) (remaining - w)

def splitTail (N w index remaining : Nat) : List (Nat × Nat) :=
  splitTailAux N w remaining index remaining

/-- The interval-splitting logic of `call_graph` (src/main.rs lines
522-538) for a call with local wall-clock timestamps `startMs ≤ endMs`
(milliseconds since an epoch aligned to local midnight): the list of
`(bucket index, milliseconds)` pairs passed to `graph.add`.
The first bucket is `hour*6 + minute/10 = (startMs mod day)/w` with
`w = 10` minutes; `head_duration = start − start.floored-to-10-minutes
= startMs mod w`; the loop runs only when the 10-minute-floored start and
end datetimes differ, i.e. `startMs/w ≠ endMs/w`, starting from
`remaining = duration − head_duration` (saturating). -/
def call_graph_split (startMs endMs : Nat) : List (Nat × Nat) :=
  let w := 10 * 60 * 1000
  let N := 24 * 6
  let index := (startMs % (24 * 60 * 60 * 1000)) / w
  let head_duration := startMs % w
  let tail :=
    if startMs / w ≠ endMs / w then
      splitTail N w (index + 1) ((endMs - startMs) - head_duration)
    else []
  (index, head_duration) :: tail

/-- The interval-splitting logic of `call_png` (src/main.rs lines
561-579): 15-second buckets (`QUANTITY_PER = 86400000/5760 = 15000`),
but the head offset is taken from the start time floored to the whole
minute (`with_second(0)`), i.e. `startMs mod 60000`, and the loop guard
compares minute-floored datetimes. -/
def call_png_split (startMs endMs : Nat) : List (Nat × Nat) :=
  let NUM_QUANTITIES := 24 * 60 * 4
  let QUANTITY_PER := 1000 * 60 * 60 * 24 / NUM_QUANTITIES
  let index := (startMs % (24 * 60 * 60 * 1000)) / QUANTITY_PER
  let head_duration := startMs % 60000
  let tail :=
    if startMs / 60000 ≠ endMs / 60000 then
      splitTail NUM_QUANTITIES QUANTITY_PER (index + 1) ((endMs - startMs) - head_duration)
    else []
  (index, head_duration) :: tail

/-- The `{:02}` zero-padded decimal formatting used by the label
closures. -/
def twoDigits (n : Nat) : List Char :=
  if n < 10 then '0' :: Nat.toDigits 10 n else Nat.toDigits 10 n

/-- The label closure of `call_graph`:
`format!("{:02}h{:02}m", idx / 6, (idx % 6) * 10)`. -/
def call_graph_label (idx : Nat) : String :=
  ⟨twoDigits (idx / 6) ++ 'h' :: (twoDigits ((idx % 6) * 10) ++ ['m'])⟩

/-- One iteration of the call loop of `call_graph`: feed every
`(bucket, milliseconds)` pair of the splitter into `Graph::add`
(whose boolean result the code ignores); `none` models a panic. -/
def call_graph_add_call (g : Graph TimeQuantity) (author : String)
    (startMs endMs : Nat) : Option (Graph TimeQuantity) :=
  (call_graph_split startMs endMs).foldl
    (fun og p => og.bind fun g1 =>
      (g1.add call_graph_label author p.1 (TimeQuantity.fromMillis p.2)).map Prod.snd)
    (some g)

/-- The per-bucket reduced total used by the `Display` impl of `Graph`
(src/data.rs line 187): sum across authors of the reduced cell values. -/
def bucket_total {T : Type} (sumFn : List T → Nat) (line : List (List T)) : Nat :=
  (line.map sumFn).sum

/-- C1 (code bug): the splitter does not conserve duration.  For a call
from 00:03:00 to 00:04:00 (duration 60000 ms), `call_graph` emits a
single pair carrying 180000 ms into bucket 0 — the head emitted is
`start mod w`, not the distance from the start to the end of its bucket
clamped to the duration.  Likewise `call_png`, for a call from 00:00:30
to 00:00:45 (duration 15000 ms), emits 30000 ms into bucket 2. -/
theorem call_graph_split_not_conserving :
    call_graph_split 180000 240000 = [(0, 180000)] ∧ 240000 - 180000 = 60000 ∧
      call_png_split 30000 45000 = [(2, 30000)] ∧ 45000 - 30000 = 15000 := by
  decide

/-- C3 (code bug): a call from 23:50 to 00:10 of the next day is split by
`call_graph` into 0 ms for bucket 143 and 600000 ms for each of buckets 0
and 1 — not 10 minutes for bucket 143 and 10 minutes for bucket 0.  No
index is out of range (everything is reduced modulo 144). -/
theorem call_graph_wraparound :
    call_graph_split 85800000 87000000 = [(143, 0), (0, 600000), (1, 600000)] := by
  decide

/-- C4: a single call by author A from 00:05:00 to 00:17:00 aggregated on
the 10-minute daily grid puts exactly 5 minutes (300000 ms) into bucket 0
and 7 minutes (420000 ms) into bucket 1, the parts summing to the
12-minute call duration. -/
theorem call_graph_five_seven :
    (call_graph_add_call (Graph.new TimeQuantity ["A", "B"] (5 * 6 + 3) 50) "A"
        300000 1020000).map (fun g => g.data.map (bucket_total dataset_sum)) =
      some [300000, 420000] ∧
      300000 = 5 * 60 * 1000 ∧ 420000 = 7 * 60 * 1000 ∧
      300000 + 420000 = 1020000 - 300000 := by
  decide

/-! ## Text renderer (`generate_progress_bar`, src/main.rs lines 176-190,
and `impl Display for Graph`, src/data.rs lines 182-203) -/

/-- The ESC character of the ANSI color escapes. -/
def escChar : Char := Char.ofNat 27

/-- The zero-width space written after each author's fill segment. -/
def zwspChar : Char := Char.ofNat 0x200B

/-- The ANSI escape `"\x1B[{n}m"` as a character list. -/
def ansiSeq (n : Nat) : List Char :=
  escChar :: '[' :: (Nat.toDigits 10 n ++ ['m'])

/-- The `for (idx, quantity)` loop body of `generate_progress_bar`:
color escape `92 + idx`, `width * quantity / max` copies of the full
glyph, then a zero-width space and the color reset. -/
def gpbSegments {α : Type} (width maxv : Nat) (full : Char) (sumFn : α → Nat) :
    Nat → List α → List Char
  | _, [] => []
  | idx, q :: qs =>
    ansiSeq (92 + idx) ++ List.replicate (width * sumFn q / maxv) full ++
      zwspChar :: ansiSeq 0 ++ gpbSegments width maxv full sumFn (idx + 1) qs

/-- Rust `generate_progress_bar` (src/main.rs lines 176-190).  Here `none` models
the division-by-zero panic of `width * quantity / max` when `max == 0`
and at least one quantity is iterated; otherwise the produced string:
`[`, the per-author segments, `width - current_quantity` (saturating)
empty glyphs, `]`. -/
def generate_progress_bar {α : Type} (width : Nat) (full emptyChar : Char) (maxv : Nat)
    (quantities : List α) (sumFn : α → Nat) : Option (List Char) :=
  if maxv = 0 ∧ quantities.isEmpty = false then none
  else
    some ('[' :: (gpbSegments width maxv full sumFn 0 quantities ++
      (List.replicate (width - (quantities.map fun q => width * sumFn q / maxv).sum) emptyChar ++
        [']'])))

/-- The bar-scaling maximum of the `Display` impl (src/data.rs line 187):
maximum per-bucket total, `0` when there are no buckets
(`minmax().into_option().unwrap_or((0, 0))`). -/
def graph_max {T : Type} (g : Graph T) (sumFn : List T → Nat) : Nat :=
  ((g.data.map (bucket_total sumFn)).max?).getD 0

/-- The per-bucket bars emitted by the `Display` impl (src/data.rs lines
197-199): buckets iterated from `start_idx` to the end, then from 0 to
`start_idx`, each indexed into `data` (a panic — `none` — when out of
range) and rendered with `generate_progress_bar` using `'#'`/`'-'`. -/
def graph_bars {T : Type} (g : Graph T) (sumFn : List T → Nat) :
    Option (List (List Char)) :=
  let maxv := graph_max g sumFn
  (List.range' g.start_idx (g.data.length - g.start_idx) ++ List.range g.start_idx).mapM
    fun idx => (g.data[idx]?).bind fun line =>
      generate_progress_bar g.width '#' '-' maxv line sumFn

/-- C2 (code bug): when every bucket total is zero (here: one bucket,
created by a call from 00:00:00 to 00:00:30 whose emitted head is 0 ms),
the observed maximum is 0 and `generate_progress_bar` hits the division
`width * quantity / max` with `max = 0` — an arithmetic fault (`none`),
not an all-empty bar. -/
theorem progress_bar_max_zero_faults :
    generate_progress_bar 50 '#' '-' 0 [[TimeQuantity.ZERO], []] dataset_sum = none ∧
      (call_graph_add_call (Graph.new TimeQuantity ["A", "B"] (5 * 6 + 3) 50) "A"
          0 30000).bind (fun g => graph_bars g dataset_sum) = none := by
  decide

theorem digitChar_ne_hash_dash (n : Nat) :
    Nat.digitChar n ≠ '#' ∧ Nat.digitChar n ≠ '-' := by
  by_cases h0 : n < 16
  · interval_cases n <;> exact ⟨by decide, by decide⟩
  · have h : Nat.digitChar n = '*' := by
      unfold Nat.digitChar
      repeat rw [if_neg (by omega)]
    rw [h]
    exact ⟨by decide, by decide⟩

theorem toDigitsCore_sub (b : Nat) (P : Char → Prop) (hP : ∀ m, P (Nat.digitChar m)) :
    ∀ (fuel n : Nat) (ds : List Char), (∀ c ∈ ds, P c) →
      ∀ c ∈ Nat.toDigitsCore b fuel n ds, P c := by
  intro fuel
  induction fuel with
  | zero =>
    intro n ds hds c hc
    exact hds c hc
  | succ fuel ih =>
    intro n ds hds c hc
    simp only [Nat.toDigitsCore] at hc
    split at hc
    · rcases List.mem_cons.mp hc with h | h
      · exact h ▸ hP _
      · exact hds c h
    · refine ih _ _ ?_ c hc
      intro c1 hc1
      rcases List.mem_cons.mp hc1 with h | h
      · exact h ▸ hP _
      · exact hds c1 h

theorem toDigits_ne_hash_dash (n : Nat) :
    ∀ c ∈ Nat.toDigits 10 n, c ≠ '#' ∧ c ≠ '-' := by
  intro c hc
  exact toDigitsCore_sub 10 (fun c => c ≠ '#' ∧ c ≠ '-') digitChar_ne_hash_dash
    (n + 1) n [] (by intro c1 hc1; cases hc1) c hc

theorem count_ansiSeq_eq_zero (c : Char) (hc : c = '#' ∨ c = '-') (n : Nat) :
    (ansiSeq n).count c = 0 := by
  rw [List.count_eq_zero]
  intro hmem
  simp only [ansiSeq, List.mem_cons, List.mem_append, List.mem_singleton] at hmem
  rcases hmem with h | h | h | h
  · rcases hc with h1 | h1 <;> (subst h1; revert h; decide)
  · rcases hc with h1 | h1 <;> (subst h1; revert h; decide)
  · obtain ⟨h1, h2⟩ := toDigits_ne_hash_dash n c h
    rcases hc with h3 | h3 <;> [exact h1 h3; exact h2 h3]
  · rcases hc with h1 | h1 <;> (subst h1; revert h; decide)

theorem count_gpbSegments {α : Type} (width maxv : Nat) (sumFn : α → Nat) :
    ∀ (qs : List α) (idx : Nat),
      (gpbSegments width maxv '#' sumFn idx qs).count '#' =
          (qs.map fun q => width * sumFn q / maxv).sum ∧
        (gpbSegments width maxv '#' sumFn idx qs).count '-' = 0 := by
  intro qs
  induction qs with
  | nil => intro idx; exact ⟨rfl, rfl⟩
  | cons q qs ih =>
    intro idx
    obtain ⟨ih1, ih2⟩ := ih (idx + 1)
    constructor
    · simp only [gpbSegments, List.count_append, List.map_cons, List.sum_cons,
        List.count_cons_of_ne (show ('#' : Char) ≠ zwspChar from by decide),
        count_ansiSeq_eq_zero '#' (Or.inl rfl), List.count_replicate_self, ih1]
      omega
    · simp only [gpbSegments, List.count_append,
        List.count_cons_of_ne (show ('-' : Char) ≠ zwspChar from by decide),
        count_ansiSeq_eq_zero '-' (Or.inr rfl), ih2]
      rw [List.count_eq_zero.mpr]
      intro hmem
      exact absurd (List.eq_of_mem_replicate hmem) (by decide)

theorem nat_div_add_div_le (a b m : Nat) : a / m + b / m ≤ (a + b) / m := by
  rcases Nat.eq_zero_or_pos m with h | h
  · subst h; simp
  · rw [Nat.le_div_iff_mul_le h, Nat.add_mul]
    exact Nat.add_le_add (Nat.div_mul_le_self a m) (Nat.div_mul_le_self b m)

theorem list_sum_div_le (m : Nat) : ∀ l : List Nat, (l.map (· / m)).sum ≤ l.sum / m := by
  intro l
  induction l with
  | nil => simp
  | cons a l ih =>
    simp only [List.map_cons, List.sum_cons]
    exact Nat.le_trans (Nat.add_le_add_left ih _) (nat_div_add_div_le a l.sum m)

theorem list_sum_map_mul_left {α : Type} (b : Nat) (f : α → Nat) :
    ∀ l : List α, (l.map fun x => b * f x).sum = b * (l.map f).sum := by
  intro l
  induction l with
  | nil => simp
  | cons a l ih => simp only [List.map_cons, List.sum_cons, ih, Nat.mul_add]

theorem fill_sum_le_width {α : Type} (width maxv : Nat) (qs : List α) (sumFn : α → Nat)
    (hM : 0 < maxv) (hsum : (qs.map sumFn).sum ≤ maxv) :
    (qs.map fun q => width * sumFn q / maxv).sum ≤ width := by
  have h1 : (qs.map fun q => width * sumFn q / maxv) =
      (qs.map fun q => width * sumFn q).map (· / maxv) := by
    rw [List.map_map]; rfl
  have h2 : (qs.map fun q => width * sumFn q).sum = width * (qs.map sumFn).sum :=
    list_sum_map_mul_left width sumFn qs
  calc (qs.map fun q => width * sumFn q / maxv).sum
      ≤ (qs.map fun q => width * sumFn q).sum / maxv := by
        rw [h1]; exact list_sum_div_le maxv _
    _ ≤ width * maxv / maxv := by
        rw [h2]
        exact Nat.div_le_div_right (Nat.mul_le_mul_left width hsum)
    _ = width := by rw [Nat.mul_comm]; exact Nat.mul_div_cancel_left width hM

/-- C10: with a positive scaling maximum `M` dominating the sum of the
per-author reduced values, the per-author fill counts
`floor(width * q_i / M)` sum to at most `width`, and the rendered bar
carries exactly `width` glyph characters (`'#'` fills plus `'-'`
padding) between its brackets. -/
theorem progress_bar_width_invariant {α : Type} (width maxv : Nat) (qs : List α)
    (sumFn : α → Nat) (hM : 0 < maxv) (hsum : (qs.map sumFn).sum ≤ maxv) :
    (qs.map fun q => width * sumFn q / maxv).sum ≤ width ∧
      ∃ s, generate_progress_bar width '#' '-' maxv qs sumFn = some s ∧
        s.count '#' + s.count '-' = width := by
  have hfill := fill_sum_le_width width maxv qs sumFn hM hsum
  refine ⟨hfill, '[' :: (gpbSegments width maxv '#' sumFn 0 qs ++
    (List.replicate (width - (qs.map fun q => width * sumFn q / maxv).sum) '-' ++ [']'])), ?_, ?_⟩
  · rw [generate_progress_bar, if_neg]
    intro h
    omega
  · obtain ⟨hc1, hc2⟩ := count_gpbSegments width maxv sumFn qs 0
    rw [List.count_cons_of_ne (show ('#' : Char) ≠ '[' from by decide),
      List.count_cons_of_ne (show ('-' : Char) ≠ '[' from by decide),
      List.count_append, List.count_append, List.count_append, List.count_append,
      hc1, hc2]
    rw [List.count_eq_zero.mpr (show ('#' : Char) ∉ List.replicate _ '-' from
      fun hmem => absurd (List.eq_of_mem_replicate hmem) (by decide))]
    rw [List.count_replicate_self]
    rw [show List.count '#' [']'] = 0 from rfl, show List.count '-' [']'] = 0 from rfl]
    omega

/-- Witness for C10 at a concrete bar: width 10, maximum 5, reduced
values 2 and 3. -/
theorem progress_bar_width_invariant_witness :
    0 < 5 ∧ (([2, 3].map id).sum ≤ 5) ∧
      (([2, 3].map fun q => 10 * id q / 5).sum ≤ 10 ∧
        ∃ s, generate_progress_bar 10 '#' '-' 5 [2, 3] id = some s ∧
          s.count '#' + s.count '-' = 10) :=
  ⟨by decide, by decide,
    progress_bar_width_invariant 10 5 [2, 3] id (by decide) (by decide)⟩

/-! ## Standard deviation (`standard_deviation`, src/main.rs lines 208-214) -/

/-- The integer accumulation loop of `standard_deviation`:
`accumulated += (len*x - sum).pow(2)` over a wide integer (the i128/u128
arithmetic is exact for all realistic inputs, so it is modelled by exact
integers). -/
def sd_accumulate (sum : Nat) (xs : List Nat) (len : Nat) : Nat :=
  xs.foldl (fun acc x => acc + (((len : Int) * x - sum) ^ 2).toNat) 0

/-- Rust `standard_deviation` (src/main.rs lines 208-214):
`(len as f64).pow(-1.5) * sqrt(accumulated)`, with the final two
floating-point operations modelled over `ℝ`. -/
noncomputable def standard_deviation (sum : Nat) (xs : List Nat) (len : Nat) : ℝ :=
  (len : ℝ) ^ (-1.5 : ℝ) * Real.sqrt (sd_accumulate sum xs len)

theorem list_foldl_add_eq {α : Type} (g : α → Nat) :
    ∀ (l : List α) (n : Nat), l.foldl (fun acc x => acc + g x) n = n + (l.map g).sum := by
  intro l
  induction l with
  | nil => intro n; simp
  | cons a l ih =>
    intro n
    simp only [List.foldl_cons, List.map_cons, List.sum_cons, ih (n + g a)]
    omega

theorem toNat_sq_cast_real (t : Int) : (((t ^ 2).toNat : Nat) : ℝ) = ((t : ℝ)) ^ 2 := by
  rw [← Int.cast_natCast, Int.toNat_of_nonneg (sq_nonneg t)]
  push_cast
  try ring

theorem sd_accumulate_eq_real (s n : Nat) (xs : List Nat) :
    ((sd_accumulate s xs n : Nat) : ℝ) =
      (xs.map fun x : Nat => ((n : ℝ) * x - s) ^ 2).sum := by
  rw [sd_accumulate, list_foldl_add_eq (fun x : Nat => (((n : Int) * x - s) ^ 2).toNat) xs 0,
    Nat.zero_add]
  induction xs with
  | nil => simp
  | cons x xs ih =>
    simp only [List.map_cons, List.sum_cons, Nat.cast_add, ih]
    congr 1
    rw [toNat_sq_cast_real]
    try push_cast
    try ring

theorem list_sum_sq_nonneg (f : Nat → ℝ) (xs : List Nat) :
    0 ≤ (xs.map fun x : Nat => f x ^ 2).sum := by
  refine List.sum_nonneg ?_
  intro y hy
  obtain ⟨x, _, rfl⟩ := List.mem_map.mp hy
  exact sq_nonneg _

theorem rpow_neg_three_halves (n : Nat) (hn : 0 < n) :
    (n : ℝ) ^ (-1.5 : ℝ) = (Real.sqrt ((n : ℝ) ^ 3))⁻¹ := by
  have hpos : (0 : ℝ) < (n : ℝ) := by exact_mod_cast hn
  rw [show (-1.5 : ℝ) = -(1.5) from by norm_num, Real.rpow_neg (le_of_lt hpos)]
  congr 1
  rw [show ((n : ℝ) ^ 3) = (n : ℝ) ^ ((3 : ℕ) : ℝ) from (Real.rpow_natCast _ 3).symm]
  rw [Real.sqrt_eq_rpow, ← Real.rpow_mul (le_of_lt hpos)]
  norm_num

/-- The result of `standard_deviation` as the claimed integer identity
`sqrt(accumulated / n³)`. -/
theorem standard_deviation_eq_sqrt_div (s n : Nat) (xs : List Nat) (hn : 0 < n) :
    standard_deviation s xs n =
      Real.sqrt (((sd_accumulate s xs n : Nat) : ℝ) / (n : ℝ) ^ 3) := by
  have hacc : (0 : ℝ) ≤ ((sd_accumulate s xs n : Nat) : ℝ) := Nat.cast_nonneg _
  rw [standard_deviation, rpow_neg_three_halves n hn,
    Real.sqrt_div hacc ((n : ℝ) ^ 3), inv_mul_eq_div]

/-- The result of `standard_deviation` as the population standard
deviation `sqrt((1/n) Σ (x_i − s/n)²)`. -/
theorem standard_deviation_eq_population (s n : Nat) (xs : List Nat) (hn : 0 < n) :
    standard_deviation s xs n =
      Real.sqrt ((xs.map fun x : Nat => ((x : ℝ) - (s : ℝ) / (n : ℝ)) ^ 2).sum / (n : ℝ)) := by
  have hpos : (0 : ℝ) < (n : ℝ) := by exact_mod_cast hn
  have hne : (n : ℝ) ≠ 0 := ne_of_gt hpos
  have hfun : (fun x : Nat => ((n : ℝ) * x - s) ^ 2) =
      fun x : Nat => (n : ℝ) ^ 2 * (((x : ℝ) - (s : ℝ) / (n : ℝ)) ^ 2) := by
    funext x
    rw [← mul_pow]
    congr 1
    field_simp
    ring
  have hsum : ((sd_accumulate s xs n : Nat) : ℝ) =
      (n : ℝ) ^ 2 * (xs.map fun x : Nat => ((x : ℝ) - (s : ℝ) / (n : ℝ)) ^ 2).sum := by
    rw [sd_accumulate_eq_real, hfun]
    induction xs with
    | nil => simp
    | cons x xs ih => simp only [List.map_cons, List.sum_cons, ih, mul_add]
  rw [standard_deviation_eq_sqrt_div s n xs hn, hsum]
  congr 1
  field_simp
  ring

/-- C7: `standard_deviation` computes the population standard deviation
of its inputs through the integer identity `sqrt(Σ(n·x − sum)² / n³)`
(the squared terms accumulated exactly in a wide integer before any
floating-point operation), and in particular returns `sqrt 2` for the
inputs `[1,2,3,4,5]` with sum 15 and length 5. -/
theorem standard_deviation_spec (xs : List Nat) (s n : Nat)
    (hlen : n = xs.length) (hpos : 0 < n) (hsum : s = xs.sum) :
    standard_deviation s xs n =
        Real.sqrt (((sd_accumulate s xs n : Nat) : ℝ) / (n : ℝ) ^ 3) ∧
      standard_deviation s xs n =
        Real.sqrt ((xs.map fun x : Nat => ((x : ℝ) - (s : ℝ) / (n : ℝ)) ^ 2).sum / (n : ℝ)) ∧
      standard_deviation 15 [1, 2, 3, 4, 5] 5 = Real.sqrt 2 := by
  refine ⟨standard_deviation_eq_sqrt_div s n xs hpos,
    standard_deviation_eq_population s n xs hpos, ?_⟩
  rw [standard_deviation_eq_population 15 5 [1, 2, 3, 4, 5] (by norm_num)]
  norm_num

/-- Witness for C7 at the known inputs `[1,2,3,4,5]`, `sum = 15`,
`len = 5`. -/
theorem standard_deviation_spec_witness :
    (5 = [1, 2, 3, 4, 5].length ∧ 0 < 5 ∧ 15 = [1, 2, 3, 4, 5].sum) ∧
      (standard_deviation 15 [1, 2, 3, 4, 5] 5 =
          Real.sqrt (((sd_accumulate 15 [1, 2, 3, 4, 5] 5 : Nat) : ℝ) / (5 : ℝ) ^ 3) ∧
        standard_deviation 15 [1, 2, 3, 4, 5] 5 =
          Real.sqrt (([1, 2, 3, 4, 5].map
            fun x : Nat => ((x : ℝ) - (15 : ℝ) / (5 : ℝ)) ^ 2).sum / (5 : ℝ)) ∧
        standard_deviation 15 [1, 2, 3, 4, 5] 5 = Real.sqrt 2) :=
  ⟨⟨by decide, by decide, by decide⟩,
    standard_deviation_spec [1, 2, 3, 4, 5] 15 5 (by decide) (by decide) (by decide)⟩
